import Mathlib

/-!
Verification of the watchgl incremental rendering engine (watchgl.py).

The Python source is shallowly embedded: every function below is a direct
transcription of the corresponding Python method.  The viper-compiled
methods store their mutable state in 32-bit signed integer arrays; those
state words are modelled as `Int` fields of Lean structures.  The 16-bit
unsigned dirty-bitfield words of `Screen.update_array` are modelled as
`Nat` values kept below 2^16 (stores are reduced mod 2^16 where a ptr16
store occurs).  Python exceptions are modelled with `Except PyErr`.
-/

namespace WGL

/-- Exceptions raised by the Python code, one constructor per distinct
raise site relevant to the verified claims. -/
inductive PyErr where
  /-- raise in a crop setup: number of skipped lines or columns is negative -/
  | negativeSkip
  /-- raise in VerticalCropStream setup: cropped height greater than source height -/
  | cropTooTall
  /-- raise in HorizontalCropStream setup: cropped width greater than source width -/
  | cropTooWide
  /-- a Python assert statement failed (AssertionError) -/
  | assertionFailed
  /-- raise in MonoImageStream setup: image must have a positive size -/
  | invalidImageSize
  /-- raise in Screen init: too many components -/
  | tooManyComponents
  /-- raise in Screen init: component goes out of screen bounds -/
  | outOfScreenBounds
  /-- raise in Screen init: overlapping components detected -/
  | overlappingComponents
  /-- Python IndexError from a list access past the end -/
  | indexError
deriving DecidableEq, Repr

/-- Interface of an ImageStream as consumed by the crop decorators: the
width and height attributes and the duck-typed skip_pixels, read_pixels
and get_remaining methods of the wrapped stream, over an abstract state
type sigma.  read_pixels returns the new state and the count of pixels
actually written. -/
structure StreamOps (σ : Type) where
  width : Int
  height : Int
  skipF : σ → Int → σ
  readF : σ → Int → σ × Int
  remF : σ → Int

/-- State of DummyImageStream from the source: width, height and the
mutable remaining counter. -/
structure DummyStream where
  width : Int
  height : Int
  remaining : Int
deriving DecidableEq, Repr

/-- DummyImageStream constructor: remaining starts at width*height. -/
def dummyNew (width height : Int) : DummyStream :=
  { width := width, height := height, remaining := width * height }

/-- DummyImageStream.skip_pixels: clamp n to remaining, ignore
non-positive requests, decrement remaining. -/
def dummySkip (s : DummyStream) (n : Int) : DummyStream :=
  let n := if n > s.remaining then s.remaining else n
  if n ≤ 0 then s else { s with remaining := s.remaining - n }

/-- DummyImageStream.read_pixels: clamp n to remaining, ignore
non-positive requests, decrement remaining and return the count read. -/
def dummyRead (s : DummyStream) (n : Int) : DummyStream × Int :=
  let n := if n > s.remaining then s.remaining else n
  if n ≤ 0 then (s, 0) else ({ s with remaining := s.remaining - n }, n)

/-- StreamOps instance for a DummyImageStream of the given dimensions. -/
def dummyOps (width height : Int) : StreamOps DummyStream :=
  { width := width, height := height,
    skipF := dummySkip, readF := dummyRead, remF := DummyStream.remaining }

/-- State of VerticalCropStream: the attributes set by _setup together
with the _SX_REMAINING word of _extra_state. -/
structure VCropSt where
  width : Int
  height : Int
  skip_lines : Int
  pixels_n : Int
  skip : Int
  remaining : Int
deriving DecidableEq, Repr

/-- VerticalCropStream._setup: validates the skip and the cropped
height, skips skip*width pixels of the wrapped stream and asserts that
the wrapped stream still holds at least height*width pixels. -/
def vcropSetup {σ : Type} (ops : StreamOps σ) (ins : σ) (skip height : Int) :
    Except PyErr (σ × VCropSt) :=
  if skip < 0 then .error .negativeSkip
  else if skip + height > ops.height then .error .cropTooTall
  else
    let pixels_n := height * ops.width
    let skipn := skip * ops.width
    let ins := ops.skipF ins skipn
    if ops.remF ins ≥ pixels_n then
      .ok (ins, { width := ops.width, height := height, skip_lines := skip,
                  pixels_n := pixels_n, skip := skipn, remaining := pixels_n })
    else .error .assertionFailed

/-- VerticalCropStream.skip_pixels: clamp the request to remaining,
forward the clamped amount to the wrapped stream and decrement
remaining. -/
def vcropSkip {σ : Type} (ops : StreamOps σ) (ins : σ) (st : VCropSt) (n : Int) :
    σ × VCropSt :=
  let n := if n > st.remaining then st.remaining else n
  if n ≤ 0 then (ins, st)
  else (ops.skipF ins n, { st with remaining := st.remaining - n })

/-- VerticalCropStream.read_pixels: clamp the request to remaining, read
from the wrapped stream, decrement remaining by the count actually read
and return that count. -/
def vcropRead {σ : Type} (ops : StreamOps σ) (ins : σ) (st : VCropSt) (n : Int) :
    σ × VCropSt × Int :=
  let n := if n > st.remaining then st.remaining else n
  if n ≤ 0 then (ins, st, 0)
  else
    let res := ops.readF ins n
    (res.1, { st with remaining := st.remaining - res.2 }, res.2)

/-- State of HorizontalCropStream: the attributes set by _setup together
with the _SX_REMAINING and _HCS_REM_IN_L words of _extra_state.  The
_SX_WIDTH and _HCS_SKIP words duplicate the width and skip fields. -/
structure HCropSt where
  width : Int
  height : Int
  skip_at_start : Int
  skip : Int
  pixels_n : Int
  instream_required : Int
  remaining : Int
  rem_in_l : Int
deriving DecidableEq, Repr

/-- HorizontalCropStream._setup: validates skip and cropped width,
asserts the wrapped stream holds enough pixels, then skips
skip_at_start pixels of the wrapped stream. -/
def hcropSetup {σ : Type} (ops : StreamOps σ) (ins : σ) (skip width : Int) :
    Except PyErr (σ × HCropSt) :=
  if skip < 0 then .error .negativeSkip
  else if skip + width > ops.width then .error .cropTooWide
  else
    let pixels_n := ops.height * width
    let skipBetween := ops.width - width
    let required := pixels_n + ops.height * skipBetween
    if ops.remF ins ≥ required then
      .ok (ops.skipF ins skip,
           { width := width, height := ops.height, skip_at_start := skip,
             skip := skipBetween, pixels_n := pixels_n,
             instream_required := required, remaining := pixels_n,
             rem_in_l := width })
    else .error .assertionFailed

/-- Body of the while loop of HorizontalCropStream.skip_pixels.  The
loop runs while n is positive; each pass either finishes the current
row (adding the inter-row skip to skip_total) or consumes part of it.
fuel bounds the number of passes; the caller supplies n.toNat which is
sufficient because each pass lowers n by at least one whenever
rem_in_l is at least one. -/
def hcsSkipLoop (WIDTH SKIP : Int) :
    Nat → Int → Int → Int → Int → Int × Int × Int
  | 0, _, remaining, rem_in_l, skip_total => (remaining, rem_in_l, skip_total)
  | fuel + 1, n, remaining, rem_in_l, skip_total =>
    if n ≤ 0 then (remaining, rem_in_l, skip_total)
    else if n ≥ rem_in_l then
      hcsSkipLoop WIDTH SKIP fuel (n - rem_in_l) (remaining - rem_in_l) WIDTH
        (skip_total + rem_in_l + SKIP)
    else (remaining - n, rem_in_l - n, skip_total + n)

/-- HorizontalCropStream.skip_pixels: clamp the request to remaining,
walk whole and partial rows accumulating the amount to discard from the
wrapped stream, then forward one skip of that total. -/
def hcropSkip {σ : Type} (ops : StreamOps σ) (ins : σ) (st : HCropSt) (n : Int) :
    σ × HCropSt :=
  let n := if n > st.remaining then st.remaining else n
  if n ≤ 0 then (ins, st)
  else
    let res := hcsSkipLoop st.width st.skip n.toNat n st.remaining st.rem_in_l 0
    (ops.skipF ins res.2.2, { st with remaining := res.1, rem_in_l := res.2.1 })

/-- Body of the while loop of HorizontalCropStream.read_pixels.  Each
pass either reads the rest of the current row from the wrapped stream
and then skips the inter-row gap, or reads the final partial request.
read_bytes accumulates the counts returned by the wrapped stream. -/
def hcropReadLoop {σ : Type} (ops : StreamOps σ) (WIDTH SKIP : Int) :
    Nat → σ → Int → Int → Int → Int → σ × Int × Int × Int
  | 0, ins, _, remaining, rem_in_l, read_bytes => (ins, remaining, rem_in_l, read_bytes)
  | fuel + 1, ins, n, remaining, rem_in_l, read_bytes =>
    if n ≤ 0 then (ins, remaining, rem_in_l, read_bytes)
    else if n ≥ rem_in_l then
      let res := ops.readF ins rem_in_l
      hcropReadLoop ops WIDTH SKIP fuel (ops.skipF res.1 SKIP) (n - rem_in_l)
        (remaining - rem_in_l) WIDTH (read_bytes + res.2)
    else
      let res := ops.readF ins n
      (res.1, remaining - n, rem_in_l - n, read_bytes + res.2)

/-- HorizontalCropStream.read_pixels: clamp the request to remaining,
read row fragments from the wrapped stream while skipping inter-row
gaps, and return the total count the wrapped stream reported. -/
def hcropRead {σ : Type} (ops : StreamOps σ) (ins : σ) (st : HCropSt) (n : Int) :
    σ × HCropSt × Int :=
  let n := if n > st.remaining then st.remaining else n
  if n ≤ 0 then (ins, st, 0)
  else
    let res := hcropReadLoop ops st.width st.skip n.toNat ins n st.remaining st.rem_in_l 0
    (res.1, { st with remaining := res.2.1, rem_in_l := res.2.2.1 }, res.2.2.2)

/-- State of MonoImageStream: the attributes set by __init__ and _setup
together with the seven words of _extra_state.  The word layout of
_extra_state is 0 = width, 1 = height, 2 = remaining (_SX_REMAINING),
3 = cbyte (_MIS_CBYTE), 4 = index (_MIS_INDEX), 5 = rem_in_l
(_MIS_REM_IN_L), 6 = rem_in_b (_MIS_REM_IN_B).  The raw 1-bit-per-pixel
bytes are a list of byte values; the two palette entries are 16-bit
color values (defaults 0 and 0xFFFF from _PALETTE2_INITALIZER). -/
structure MonoState where
  raw : List Nat
  width : Int
  height : Int
  n_pixels : Int
  palette0 : Nat
  palette1 : Nat
  remaining : Int
  cbyte : Int
  index : Int
  rem_in_l : Int
  rem_in_b : Int
deriving DecidableEq, Repr

/-- MonoImageStream._setup: rejects non-positive dimensions, then
initialises every state word.  rem_in_b starts at 8 unless the first
row ends inside the first byte, in which case it is clamped to the
row width.  Viper ptr8 reads are unchecked, so an out-of-range byte
read is modelled as 0 via getD. -/
def monoSetup (raw : List Nat) (width height : Int) : Except PyErr MonoState :=
  if width ≤ 0 ∨ height ≤ 0 then .error .invalidImageSize
  else
    let n_pixels := width * height
    .ok { raw := raw, width := width, height := height, n_pixels := n_pixels,
          palette0 := 0, palette1 := 0xFFFF,
          remaining := n_pixels, cbyte := (raw.getD 0 0 : Int), index := 0,
          rem_in_l := width,
          rem_in_b := if width < 8 then width else 8 }

/-- MonoImageStream.reset, transcribed with the literal numeric indices
the source uses.  _setup writes through the named constants (remaining
at word 2, cbyte at 3, index at 4, rem_in_l at 5, rem_in_b at 6) but
reset writes the cbyte value at word 2, zero at word 3, the width at
word 4 and 8 at word 5, i.e. one slot below each intended field, and
never touches word 6.  Each line below mirrors one assignment. -/
def monoReset (s : MonoState) : MonoState :=
  let s := { s with remaining := s.n_pixels }
  let s := { s with remaining := (s.raw.getD 0 0 : Int) }
  let s := { s with cbyte := 0 }
  let s := { s with index := s.width }
  let s := { s with rem_in_l := 8 }
  if s.index < 8 then { s with rem_in_l := s.remaining } else s

/-- Cursor advance shared by the skip and read loops of
MonoImageStream: shift the current byte right by one bit, decrement
the three counters, and stop on exhaustion; otherwise reload the next
byte when the current one is spent, clamping the bits available in it
to the pixels left in the row when the row ends first.  The arithmetic
right shift of the 32-bit signed cbyte is floor division by 2. -/
def monoAdvance (s : MonoState) : MonoState × Bool :=
  let cbyte := Int.fdiv s.cbyte 2
  let rem_in_b := s.rem_in_b - 1
  let rem_in_l := s.rem_in_l - 1
  let remaining := s.remaining - 1
  if remaining ≤ 0 then
    ({ s with cbyte := cbyte, rem_in_b := rem_in_b, rem_in_l := rem_in_l,
              remaining := remaining }, true)
  else if rem_in_b = 0 then
    let rem_in_b := if rem_in_l = 0 then (8 : Int)
                    else if rem_in_l < 8 then rem_in_l else 8
    let rem_in_l := if rem_in_l = 0 then s.width else rem_in_l
    let index := s.index + 1
    ({ s with cbyte := (s.raw.getD index.toNat 0 : Int), rem_in_b := rem_in_b,
              rem_in_l := rem_in_l, remaining := remaining, index := index }, false)
  else
    ({ s with cbyte := cbyte, rem_in_b := rem_in_b, rem_in_l := rem_in_l,
              remaining := remaining }, false)

/-- Body of the while loop of MonoImageStream.skip_pixels: one cursor
advance per requested pixel, stopping early on exhaustion. -/
def monoSkipLoop : Nat → MonoState → MonoState
  | 0, s => s
  | fuel + 1, s =>
    let sa := monoAdvance s
    if sa.2 then sa.1 else monoSkipLoop fuel sa.1

/-- MonoImageStream.skip_pixels: clamp the request to remaining, then
run the per-pixel loop. -/
def monoSkipPixels (s : MonoState) (n : Int) : MonoState :=
  let n := if n > s.remaining then s.remaining else n
  if n ≤ 0 then s else monoSkipLoop n.toNat s

/-- Body of the while loop of MonoImageStream.read_pixels: per pixel,
look the low bit of the current byte up in the palette, append the
color low byte then high byte to the output, and advance the cursor.
The output models the bytes written to the destination buffer in
order (the buffer offset advances by two per pixel). -/
def monoReadLoop : Nat → MonoState → List Nat → MonoState × List Nat
  | 0, s, out => (s, out)
  | fuel + 1, s, out =>
    let color := if s.cbyte % 2 = 1 then s.palette1 else s.palette0
    let out := out ++ [color % 256, (color >>> 8) % 256]
    let sa := monoAdvance s
    if sa.2 then (sa.1, out) else monoReadLoop fuel sa.1 out

/-- MonoImageStream.read_pixels: clamp the request to remaining, run
the per-pixel loop and return the clamped count. -/
def monoReadPixels (s : MonoState) (n : Int) : MonoState × List Nat × Int :=
  let n := if n ≥ s.remaining then s.remaining else n
  if n ≤ 0 then (s, [], 0)
  else
    let res := monoReadLoop n.toNat s []
    (res.1, res.2, n)

/-- Screen.notify_component_update: the update array is nine 16-bit
words; word 0 is the summary and words 1..8 are the per-block bit
masks.  For a component id cid the block word index is 1 + (cid >> 4)
and the bit inside the block is cid & 0xf.  Stores into the ptr16
array keep only the low 16 bits. -/
def notifyComponentUpdate (u : List Nat) (cid : Nat) : List Nat :=
  let byti := 1 + (cid >>> 4)
  let biti := cid % 16
  let u := u.set 0 ((u.getD 0 0 ||| (1 <<< byti)) % 65536)
  u.set byti ((u.getD byti 0 ||| (1 <<< biti)) % 65536)

/-- Inner while loop of Screen.draw_lazy over the 16 bits of one block
word.  id_sub counts iterations starting at zero and is incremented
before the bit test, so the pass that sees bit p set computes the
component id as id_block_off + p + 1.  That id is used directly as a
list index into Screen.components; an index past the end raises
IndexError.  Drawn list indices are appended to acc. -/
def lazyInner (ncomps : Nat) (id_block_off : Nat) :
    Nat → Nat → Nat → List Nat → Except PyErr (List Nat)
  | 0, _, _, acc => .ok acc
  | fuel + 1, id_sub, value, acc =>
    let id_sub := id_sub + 1
    let id_used := value % 2
    let value := value / 2
    if id_used = 0 then
      if value = 0 then .ok acc
      else lazyInner ncomps id_block_off fuel id_sub value acc
    else
      let cid := id_block_off + id_sub
      if cid < ncomps then
        lazyInner ncomps id_block_off fuel id_sub value (acc ++ [cid])
      else .error .indexError

/-- Outer while loop of Screen.draw_lazy over the summary bits.
id_block_off starts at -16 and is incremented by 16 at the top of each
pass, so on the pass where byti becomes k the block offset is
16*(k-1).  A used block has its word captured, zeroed in the array and
scanned by the inner loop. -/
def lazyOuter (ncomps : Nat) :
    Nat → Nat → Nat → List Nat → List Nat → Except PyErr (List Nat × List Nat)
  | 0, _, _, update, acc => .ok (acc, update)
  | fuel + 1, byti, ub, update, acc =>
    let id_block_off := 16 * byti
    let id_block_used := ub % 2
    let byti := byti + 1
    let ub := ub / 2
    if id_block_used = 0 then
      if ub = 0 then .ok (acc, update)
      else lazyOuter ncomps fuel byti ub update acc
    else
      let value := update.getD byti 0 % 65536
      let update := update.set byti 0
      match lazyInner ncomps id_block_off 16 0 value acc with
      | .error e => .error e
      | .ok acc => lazyOuter ncomps fuel byti ub update acc

/-- Screen.draw_lazy: returns the list indices into Screen.components
whose draw callback is invoked, in invocation order, together with the
final update array.  A zero summary word returns immediately; after
the sweep the summary word is cleared.  Each drawn component also gets
its dirty flag cleared and its window established, which the returned
index list determines. -/
def drawLazy (update : List Nat) (ncomps : Nat) :
    Except PyErr (List Nat × List Nat) :=
  let ub := update.getD 0 0
  if ub = 0 then .ok ([], update)
  else
    match lazyOuter ncomps 9 0 (ub / 2) update [] with
    | .error e => .error e
    | .ok (acc, update) => .ok (acc, update.set 0 0)

/-- State of a Component relevant to set_var: the string-keyed variable
store (a Python dict, modelled as an insertion-ordered association
list), the dirty flag and the component id assigned by its Screen. -/
structure VarComp (V : Type) where
  store : List (String × V)
  dirty : Bool
  cid : Nat
deriving DecidableEq, Repr

/-- Python dict lookup on the association list. -/
def dget {V : Type} : List (String × V) → String → Option V
  | [], _ => none
  | (k', v') :: t, k => if k' = k then some v' else dget t k

/-- Python dict store: replace the binding in place if the key exists,
otherwise append it. -/
def dset {V : Type} : List (String × V) → String → V → List (String × V)
  | [], k, v => [(k, v)]
  | (k', v') :: t, k, v => if k' = k then (k, v) :: t else (k', v') :: dset t k v

/-- Component.set_var: return unchanged when the key is present with an
equal value; otherwise store the value and, when the component is not
already dirty, notify the owning Screen with the component id and set
the dirty flag. -/
def setVar {V : Type} [DecidableEq V] (c : VarComp V) (u : List Nat)
    (k : String) (v : V) : VarComp V × List Nat :=
  if dget c.store k = some v then (c, u)
  else
    let store := dset c.store k v
    if c.dirty then ({ c with store := store }, u)
    else ({ c with store := store, dirty := true }, notifyComponentUpdate u c.cid)

/-- Component.set_var_q: store the value without touching the dirty
flag or the Screen. -/
def setVarQ {V : Type} (c : VarComp V) (k : String) (v : V) : VarComp V :=
  { c with store := dset c.store k v }

/-- Geometry of a Component as read by Screen.__init__. -/
structure Comp where
  x : Nat
  y : Nat
  width : Nat
  height : Nat
deriving DecidableEq, Repr

/-- First tile row of a component: c.y >> _TILE_SIZE_DIV. -/
def cy0 (c : Comp) : Nat := c.y >>> 4

/-- One past the last tile row: cy0 + (c.height >> _TILE_SIZE_DIV). -/
def cy1 (c : Comp) : Nat := cy0 c + (c.height >>> 4)

/-- First tile column of a component: c.x >> _TILE_SIZE_DIV. -/
def cx0 (c : Comp) : Nat := c.x >>> 4

/-- One past the last tile column: cx0 + (c.width >> _TILE_SIZE_DIV). -/
def cx1 (c : Comp) : Nat := cx0 c + (c.width >>> 4)

/-- The tile at row r, column j lies in the tile rectangle the
component occupies. -/
def occupies (c : Comp) (r j : Nat) : Prop :=
  cy0 c ≤ r ∧ r < cy1 c ∧ cx0 c ≤ j ∧ j < cx1 c

instance (c : Comp) (r j : Nat) : Decidable (occupies c r j) := by
  unfold occupies; exact inferInstance

/-- Two components occupy no common tile.  The quantifiers are bounded
by the first component's extent, which suffices because occupancy
forces r < cy1 a and j < cx1 a. -/
def tileDisjoint (a b : Comp) : Prop :=
  ∀ r < cy1 a, ∀ j < cx1 a, ¬(occupies a r j ∧ occupies b r j)

instance (a b : Comp) : Decidable (tileDisjoint a b) := by
  unfold tileDisjoint; exact inferInstance

/-- Inner for loop of the overlap check in Screen.__init__: for each
column i from cx0 for count passes, raise if bit i of the row value
captured before the loop is set, otherwise set bit i in the row word. -/
def markRow (value : Nat) : Nat → Nat → Nat → Except PyErr Nat
  | word, _, 0 => .ok word
  | word, i, count + 1 =>
    if value.testBit i then .error .overlappingComponents
    else markRow value (word ||| (1 <<< i)) (i + 1) count

/-- Outer for loop of the overlap check: for each tile row from r for
count passes, run the column loop against the captured row value and
store the updated word back into the bitfield. -/
def markComp (c : Comp) : (Nat → Nat) → Nat → Nat → Except PyErr (Nat → Nat)
  | f, _, 0 => .ok f
  | f, r, count + 1 =>
    match markRow (f r) (f r) (cx0 c) (c.width >>> 4) with
    | .error e => .error e
    | .ok w => markComp c (fun r' => if r' = r then w else f r') (r + 1) count

/-- Per-component loop of Screen.__init__: bounds check against the
tiled dimensions, overlap check through the bitfield, then recurse
with the next id.  On success each component is paired with the
sequential id it received. -/
def screenLoop (TH TW : Nat) : (Nat → Nat) → Nat → List Comp →
    Except PyErr (List (Comp × Nat))
  | _, _, [] => .ok []
  | f, cid, c :: cs =>
    if cy1 c > TH ∨ cx1 c > TW then .error .outOfScreenBounds
    else
      match markComp c f (cy0 c) (c.height >>> 4) with
      | .error e => .error e
      | .ok f =>
        match screenLoop TH TW f (cid + 1) cs with
        | .error e => .error e
        | .ok rest => .ok ((c, cid) :: rest)

/-- Screen.__init__ restricted to the validation and id assignment the
claims are about: the 127-component cap, then the per-component sweep
over a zeroed bitfield, with ids starting at 1.  Note the source
computes tiled_height from the display width and tiled_width from the
display height (swapped); the neighbor map construction is omitted
because it cannot raise and does not affect ids. -/
def screenInit (specWidth specHeight : Nat) (cs : List Comp) :
    Except PyErr (List (Comp × Nat)) :=
  if cs.length > 127 then .error .tooManyComponents
  else screenLoop (specWidth >>> 4) (specHeight >>> 4) (fun _ => 0) 1 cs

/-- The five words of WatchGraphics._window_info: the active window's
size, its device-coordinate origin and the vertical scroll shift. -/
structure WindowInfo where
  width : Int
  height : Int
  xpos : Int
  ypos : Int
  yshift : Int
deriving DecidableEq, Repr

/-- One call of the display sink's wgl_fill primitive, with absolute
device coordinates. -/
structure FillEvt where
  color : Int
  x : Int
  y : Int
  w : Int
  h : Int
deriving DecidableEq, Repr

/-- WatchGraphics.fill: apply the vertical shift, clip all four edges
against the active window (a negative origin reduces the extent, an
overflow past the far edge reduces the extent), drop empty results and
otherwise forward one absolute rectangle to wgl_fill. -/
def wgFill (wi : WindowInfo) (color x y width height : Int) : Option FillEvt :=
  let y := y + wi.yshift
  let height := if y < 0 then height + y else height
  let y := if y < 0 then 0 else y
  let width := if x < 0 then width + x else width
  let x := if x < 0 then 0 else x
  let max_y := y + height - 1
  let max_x := x + width - 1
  let width := if max_x ≥ wi.width then width + (wi.width - 1) - max_x else width
  let height := if max_y ≥ wi.height then height + (wi.height - 1) - max_y else height
  if width ≤ 0 ∨ height ≤ 0 then none
  else some ⟨color, wi.xpos + x, wi.ypos + y, width, height⟩

/-- Parameters of WatchGraphics.draw_line that stay fixed across the
Bresenham loop. -/
structure LineCtx where
  wi : WindowInfo
  color : Int
  width : Int
  x1 : Int
  y1 : Int
  sx : Int
  sy : Int
  dx : Int
  dy : Int
  dx2 : Int
  dy2 : Int
deriving Repr

/-- Flush of the pending coalescing rectangle: one absolute wgl_fill
call, translated by the window origin. -/
def lineFlush (ctx : LineCtx) (fill_x fill_y fill_w fill_h : Int)
    (acc : List FillEvt) : List FillEvt :=
  if fill_x ≠ -1 then
    acc ++ [⟨ctx.color, ctx.wi.xpos + fill_x, ctx.wi.ypos + fill_y, fill_w, fill_h⟩]
  else acc

/-- Main while loop of WatchGraphics.draw_line.  Per pass: clip the
thickness-square at the current point against the window, then either
grow the pending rectangle (same origin, or colinear in x with equal
height, or colinear in y with equal width), or flush it and start a
new one; finally advance the Bresenham stepper, breaking (and flushing)
when an axis that must advance has reached its endpoint.  fuel bounds
the passes; the entry point passes dx - dy + 1 passes, which suffices
because every non-final pass moves x or y one step toward the
endpoint. -/
def drawLineLoop (ctx : LineCtx) :
    Nat → Int → Int → Int → Int → Int → Int → Int → List FillEvt → List FillEvt
  | 0, _, _, _, fill_x, fill_y, fill_w, fill_h, acc =>
    lineFlush ctx fill_x fill_y fill_w fill_h acc
  | fuel + 1, x0, y0, error, fill_x, fill_y, fill_w, fill_h, acc =>
    let rwidth := if x0 < 0 then ctx.width + x0 else ctx.width
    let rx0 := if x0 < 0 then 0 else x0
    let rheight := if y0 < 0 then ctx.width + y0 else ctx.width
    let ry0 := if y0 < 0 then 0 else y0
    let max_width := ctx.wi.width - rx0
    let max_height := ctx.wi.height - ry0
    let rwidth := if rwidth > max_width then max_width else rwidth
    let rheight := if rheight > max_height then max_height else rheight
    let x_offset := rx0 - fill_x
    let y_offset := ry0 - fill_y
    let (fill_x, fill_y, fill_w, fill_h, acc) :=
      if rwidth ≤ 0 ∨ rheight ≤ 0 then
        if fill_x ≠ -1 then
          (-1, -1, fill_w, fill_h, lineFlush ctx fill_x fill_y fill_w fill_h acc)
        else (fill_x, fill_y, fill_w, fill_h, acc)
      else if y_offset = 0 ∧ x_offset = 0 then
        (fill_x, fill_y,
         if rwidth > fill_w then rwidth else fill_w,
         if rheight > fill_h then rheight else fill_h, acc)
      else if y_offset = 0 ∧ rheight = fill_h then
        if x_offset < 0 then (fill_x + x_offset, fill_y, fill_w - x_offset, fill_h, acc)
        else (fill_x, fill_y, fill_w + x_offset, fill_h, acc)
      else if x_offset = 0 ∧ rwidth = fill_w then
        if y_offset < 0 then (fill_x, fill_y + y_offset, fill_w, fill_h - y_offset, acc)
        else (fill_x, fill_y, fill_w, fill_h + y_offset, acc)
      else
        (rx0, ry0, rwidth, rheight, lineFlush ctx fill_x fill_y fill_w fill_h acc)
    if error ≥ ctx.dy ∧ x0 = ctx.x1 then
      lineFlush ctx fill_x fill_y fill_w fill_h acc
    else
      let (error_change, x0) :=
        if error ≥ ctx.dy then (ctx.dy2, x0 + ctx.sx) else (0, x0)
      if error ≤ ctx.dx ∧ y0 = ctx.y1 then
        lineFlush ctx fill_x fill_y fill_w fill_h acc
      else
        let (error_change, y0) :=
          if error ≤ ctx.dx then (error_change + ctx.dx2, y0 + ctx.sy)
          else (error_change, y0)
        drawLineLoop ctx fuel x0 y0 (error + error_change) fill_x fill_y fill_w fill_h acc

/-- WatchGraphics.draw_line: endpoints are first shifted by the line
thickness offset (width-1)//2; a zero-length segment becomes one
thickness-square fill, a horizontal segment one x-spanning fill and a
vertical segment one y-spanning fill, all through WatchGraphics.fill;
the general case applies the vertical shift and runs the coalescing
Bresenham loop, emitting absolute rectangles through wgl_fill. -/
def drawLine (wi : WindowInfo) (color width x0 y0 x1 y1 : Int) : List FillEvt :=
  let ltoff := Int.fdiv (width - 1) 2
  let x0 := x0 - ltoff
  let y0 := y0 - ltoff
  let x1 := x1 - ltoff
  let y1 := y1 - ltoff
  let dx := |x1 - x0|
  let dy := -|y1 - y0|
  let mdy := 0 - dy
  if dx = 0 ∧ dy = 0 then
    (wgFill wi color x0 y0 width width).toList
  else if dy = 0 then
    -- the source swaps x0 and x1 when x0 > x1; the swapped x1 is unused
    let x0 := if x0 > x1 then x1 else x0
    (wgFill wi color x0 y0 (dx + width) width).toList
  else if dx = 0 then
    -- the source swaps y0 and y1 when y0 > y1; the swapped y1 is unused
    let y0 := if y0 > y1 then y1 else y0
    (wgFill wi color x0 y0 width (mdy + width)).toList
  else
    let y0 := y0 + wi.yshift
    let y1 := y1 + wi.yshift
    let sx : Int := if x0 < x1 then 1 else -1
    let sy : Int := if y0 < y1 then 1 else -1
    let dx2 := dx <<< 1
    let dy2 := dy <<< 1
    let error := dx2 + dy2
    drawLineLoop ⟨wi, color, width, x1, y1, sx, sy, dx, dy, dx2, dy2⟩
      ((dx + mdy).toNat + 1) x0 y0 error (-1) (-1) (-1) (-1) []

/-- Shape of the stream forwarded to the sink's wgl_blit by
WatchGraphics.blit: the original stream, possibly wrapped in the
preallocated vertical and/or horizontal crop decorators. -/
inductive BlitImage where
  | orig : BlitImage
  | vcropped (skip height : Int) (inner : BlitImage) : BlitImage
  | hcropped (skip width : Int) (inner : BlitImage) : BlitImage
deriving DecidableEq, Repr

/-- WatchGraphics.blit: apply the vertical shift, compute how many
lines and columns must be cropped at each edge; when nothing needs
cropping forward the original stream at the shifted coordinates as
they are, otherwise wrap the stream in the needed crop decorators,
drop fully clipped blits, and forward the wrapped stream at
coordinates translated by the window origin.  The result is the
(stream shape, x, y) triple passed to wgl_blit, or none when the blit
is dropped. -/
def blitCall (wi : WindowInfo) (imgW imgH x y : Int) :
    Option (BlitImage × Int × Int) :=
  let y := y + wi.yshift
  let skip_lines := if y < 0 then 0 - y else 0
  let reduce_by_lines :=
    skip_lines + (if y + imgH > wi.height then (y + imgH) - wi.height else 0)
  let skip_cols := if x < 0 then 0 - x else 0
  let reduce_by_cols :=
    skip_cols + (if x + imgW > wi.width then (x + imgW) - wi.width else 0)
  if reduce_by_lines = 0 ∧ reduce_by_cols = 0 then
    some (.orig, x, y)
  else
    let afterCols := fun (image : BlitImage) (x y : Int) =>
      if reduce_by_cols > 0 then
        let width := imgW - reduce_by_cols
        if width ≤ 0 then none
        else some (BlitImage.hcropped skip_cols width image, wi.xpos + (x + skip_cols),
                   wi.ypos + y)
      else some (image, wi.xpos + x, wi.ypos + y)
    if reduce_by_lines > 0 then
      let height := imgH - reduce_by_lines
      if height ≤ 0 then none
      else afterCols (BlitImage.vcropped skip_lines height .orig) x (y + skip_lines)
    else afterCols .orig x y

/-- WatchGraphics.draw_line_polar: the positional argument tuple the
source passes to draw_line.  The source computes
theta2 = theta*(pi/180), xdelta = sin(theta2), ydelta = cos(theta2)
in floating point; the truncated products int(xdelta*r) and
int(ydelta*r) are abstracted as the integer-valued oracles ixd and
iyd.  Note the source derives both y endpoints from x (not y) and
calls self.draw_line(x0, y0, x1, y1, width, color); since draw_line
declares its parameters in the order (color, width, x0, y0, x1, y1),
the first returned component is bound to the color parameter, the
second to width, and so on. -/
def drawLinePolarArgs (color x y theta r0 r1 width : Int)
    (ixd iyd : Int → Int) : Int × Int × Int × Int × Int × Int :=
  let x0 := x + ixd r0
  let x1 := x + ixd r1
  let y0 := x - iyd r0
  let y1 := x - iyd r1
  (x0, y0, x1, y1, width, color)

/-! Claim theorems. -/

/-- C1: refuted by the code.  After notify_component_update(1) on a
screen with three components, draw_lazy invokes the draw callback of
the component at list index 2 (the component with id 3), not the
notified component at index 0 (id 1): the inner bit scan reconstructs
the id one too high and that id is then used directly as a 0-based
list index.  With a single component the same sweep raises IndexError.
The bitfield does end up all zero, and a draw_lazy with no pending
updates performs zero draw calls. -/
theorem draw_lazy_visits_shifted_component :
    drawLazy (notifyComponentUpdate (List.replicate 9 0) 1) 3 =
      .ok ([2], List.replicate 9 0) ∧
    ([2] : List Nat) ≠ [0] ∧
    drawLazy (notifyComponentUpdate (List.replicate 9 0) 1) 1 = .error .indexError ∧
    (∀ ncomps, drawLazy (List.replicate 9 0) ncomps = .ok ([], List.replicate 9 0)) :=
  ⟨rfl, by decide, rfl, fun _ => rfl⟩

/-- C2 counterexample: a vertical crop whose extent skip+height = 5
exceeds the source height 4 does not succeed with a truncated height;
construction raises, and the horizontal crop rejects analogously. -/
theorem crop_truncation_counterexample :
    vcropSetup (dummyOps 4 4) (dummyNew 4 4) 2 3 = .error .cropTooTall ∧
    hcropSetup (dummyOps 4 4) (dummyNew 4 4) 2 3 = .error .cropTooWide :=
  ⟨rfl, rfl⟩

/-- C2 amended: for every source stream and every crop request whose
extent skip+height (resp. skip+width) exceeds the source height
(resp. width), crop construction raises an exception; nothing is
truncated. -/
theorem crop_oversize_rejected {σ : Type} (ops : StreamOps σ) (ins : σ)
    (skip extent : Int) (hskip : 0 ≤ skip) :
    (ops.height < skip + extent → vcropSetup ops ins skip extent = .error .cropTooTall) ∧
    (ops.width < skip + extent → hcropSetup ops ins skip extent = .error .cropTooWide) := by
  refine ⟨fun h => ?_, fun h => ?_⟩
  · unfold vcropSetup
    rw [if_neg (by omega), if_pos (by omega)]
  · unfold hcropSetup
    rw [if_neg (by omega), if_pos (by omega)]

/-- C2 amended claim applied at a concrete oversize request on a
concrete 4 by 4 source stream. -/
theorem crop_oversize_rejected_witness :
    vcropSetup (dummyOps 4 4) (dummyNew 4 4) 0 5 = .error .cropTooTall ∧
    hcropSetup (dummyOps 4 4) (dummyNew 4 4) 0 5 = .error .cropTooWide :=
  ⟨(crop_oversize_rejected (dummyOps 4 4) (dummyNew 4 4) 0 5 (by decide)).1 (by decide),
   (crop_oversize_rejected (dummyOps 4 4) (dummyNew 4 4) 0 5 (by decide)).2 (by decide)⟩

/-- C3: refuted by the code.  For the 1 by 1 bit-plane image over the
single raw byte 3, the first full read outputs the foreground color
bytes [255, 255]; reset() then leaves remaining = 3 instead of
width*height = 1 (it stores the first raw byte into the remaining
word), zeroes the current-byte word, and the second full read outputs
the background color bytes [0, 0], so the round trip is not
byte-for-byte identical. -/
theorem mono_reset_roundtrip_bug :
    (monoSetup [3] 1 1).map (fun s0 => (monoReadPixels s0 1).2.1) = .ok [255, 255] ∧
    (monoSetup [3] 1 1).map
      (fun s0 => (monoReset (monoReadPixels s0 1).1).remaining) = .ok 3 ∧
    (monoSetup [3] 1 1).map (fun s0 => s0.width * s0.height) = .ok 1 ∧
    (monoSetup [3] 1 1).map
      (fun s0 => (monoReadPixels (monoReset (monoReadPixels s0 1).1) 1).2.1) =
      .ok [0, 0] ∧
    ([0, 0] : List Nat) ≠ [255, 255] ∧ (3 : Int) ≠ 1 :=
  ⟨rfl, rfl, rfl, rfl, by decide, by decide⟩

/-- C4 counterexample: the general diagonal line from (0,0) to (6,4)
with width 1 on an unclipped 240 by 240 window reaches the display
sink as five separate rectangle-fill transactions, not as one batched
sequence-fill call; the sink protocol of the source has no
fillRectSeq primitive at all (wgl_fill_seq is commented out). -/
theorem draw_line_single_batch_counterexample :
    (drawLine ⟨240, 240, 0, 0, 0⟩ 7 1 0 0 6 4).length = 5 ∧
    (drawLine ⟨240, 240, 0, 0, 0⟩ 7 1 0 0 6 4).length ≠ 1 :=
  ⟨rfl, by decide⟩

/-- C4 amended: the coalesced rectangles of a general line are emitted
to the display sink as individual wgl_fill calls carrying absolute
coordinates translated by the window origin, not as relative
(dx,dy,w,h) offsets: with the window origin at (3,5) every emitted
rectangle of the line from (0,0) to (6,4) carries its full
origin-translated position, while a relative encoding would carry the
offsets (1,1), (2,1), (1,1) and (2,1) after the first entry. -/
theorem draw_line_individual_absolute_fills :
    drawLine ⟨240, 240, 3, 5, 0⟩ 7 1 0 0 6 4 =
      [⟨7, 3, 5, 1, 1⟩, ⟨7, 4, 6, 2, 1⟩, ⟨7, 6, 7, 1, 1⟩,
       ⟨7, 7, 8, 2, 1⟩, ⟨7, 9, 9, 1, 1⟩] :=
  rfl

/-- C5: refuted by the code.  With the active window at origin
(16,16), an 8 by 8 stream blitted fully inside the window is forwarded
to wgl_blit at the untranslated coordinates (1,2) instead of (17,18):
the unclipped early return passes x and y without adding the window
origin, while the clipped path does translate (second conjunct: the
same blit pushed above the top edge is cropped and lands at
(16+1, 16+0)). -/
theorem blit_window_translation_bug :
    blitCall ⟨64, 64, 16, 16, 0⟩ 8 8 1 2 = some (.orig, 1, 2) ∧
    (some (BlitImage.orig, (1 : Int), (2 : Int)) ≠
      some (BlitImage.orig, (16 + 1 : Int), (16 + 2 : Int))) ∧
    blitCall ⟨64, 64, 16, 16, 0⟩ 8 8 1 (-2) =
      some (.vcropped 2 6 .orig, 17, 16) :=
  ⟨rfl, by decide, rfl⟩

/-- C10: refuted by the code.  At theta = 0 the trigonometry is exact
(sin 0 = 0, cos 0 = 1, so the truncated products are 0 and r), yet for
center (5,7), radii 1 and 2, width 3 and color 9 the tuple passed
positionally to draw_line is (5, 4, 5, 3, 3, 9): draw_line receives 5
as its color, 4 as its width, and the color 9 as its final y
coordinate, because the call passes (x0, y0, x1, y1, width, color)
against the parameter order (color, width, x0, y0, x1, y1); moreover
both y endpoints are computed from the center x, so the claimed
correct tuple (9, 3, 5, 6, 5, 5) differs in every misplaced
position. -/
theorem draw_line_polar_delegation_bug :
    drawLinePolarArgs 9 5 7 0 1 2 3 (fun _ => 0) (fun r => r) = (5, 4, 5, 3, 3, 9) ∧
    ((5, 4, 5, 3, 3, 9) : Int × Int × Int × Int × Int × Int) ≠ (9, 3, 5, 6, 5, 5) :=
  ⟨rfl, by decide⟩

/-- C8: Component.set_var leaves the store, the dirty flag and the
Screen's dirty bitfield unchanged when the key is already present with
an equal value; otherwise it stores the value and, only if the
component was not already dirty, sets the dirty flag and notifies the
owning Screen with the component's id; set_var_q stores the value and
never changes the dirty flag or the bitfield. -/
theorem set_var_semantics {V : Type} [DecidableEq V] (c : VarComp V)
    (u : List Nat) (k : String) (v : V) :
    (dget c.store k = some v → setVar c u k v = (c, u)) ∧
    (dget c.store k ≠ some v → c.dirty = true →
      setVar c u k v = ({ c with store := dset c.store k v }, u)) ∧
    (dget c.store k ≠ some v → c.dirty = false →
      setVar c u k v = ({ c with store := dset c.store k v, dirty := true },
        notifyComponentUpdate u c.cid)) ∧
    setVarQ c k v = { c with store := dset c.store k v } := by
  refine ⟨fun h => ?_, fun h hd => ?_, fun h hd => ?_, rfl⟩
  · unfold setVar
    rw [if_pos h]
  · unfold setVar
    rw [if_neg h, if_pos hd]
  · unfold setVar
    rw [if_neg h, if_neg (by simp [hd])]

/-- C8 applied at concrete inputs: a store holding key "k" with value 1
is untouched by an equal set_var; storing value 2 on a clean component
updates the store, marks it dirty and notifies the Screen with id 1;
set_var_q only updates the store. -/
theorem set_var_semantics_witness :
    setVar { store := [(("k"), (1 : Nat))], dirty := false, cid := 1 }
        (List.replicate 9 0) ("k") 1 =
      ({ store := [(("k"), 1)], dirty := false, cid := 1 }, List.replicate 9 0) ∧
    setVar { store := [(("k"), (1 : Nat))], dirty := false, cid := 1 }
        (List.replicate 9 0) ("k") 2 =
      ({ store := [(("k"), 2)], dirty := true, cid := 1 },
        notifyComponentUpdate (List.replicate 9 0) 1) ∧
    setVarQ { store := [(("k"), (1 : Nat))], dirty := false, cid := 1 } ("k") 2 =
      { store := [(("k"), 2)], dirty := false, cid := 1 } :=
  ⟨(set_var_semantics _ _ _ _).1 (by decide),
   (set_var_semantics { store := [(("k"), (1 : Nat))], dirty := false, cid := 1 }
      (List.replicate 9 0) ("k") 2).2.2.1 (by decide) rfl,
   (set_var_semantics { store := [(("k"), (1 : Nat))], dirty := false, cid := 1 }
      (List.replicate 9 0) ("k") 2).2.2.2⟩

/-- Helper: WatchGraphics.fill forwards the rectangle unchanged (up to
the window-origin translation) when the vertical shift is zero and the
rectangle lies fully inside the window. -/
theorem wgFill_unclipped (wi : WindowInfo) (color x y w h : Int)
    (hsh : wi.yshift = 0) (hx : 0 ≤ x) (hy : 0 ≤ y) (hw : 0 < w) (hh : 0 < h)
    (hxw : x + w ≤ wi.width) (hyh : y + h ≤ wi.height) :
    wgFill wi color x y w h = some ⟨color, wi.xpos + x, wi.ypos + y, w, h⟩ := by
  unfold wgFill
  rw [hsh]
  simp only [add_zero]
  split_ifs <;> first
    | rfl
    | (exfalso; omega)

/-- C6: every degenerate draw_line call (zero-length, perfectly
horizontal or perfectly vertical) on a window with no vertical shift,
with the stroke fully inside the window, results in exactly one sink
fill: a zero-length segment yields one thickness-square, a horizontal
segment one rectangle spanning the x-extent with height equal to the
thickness, a vertical segment one rectangle spanning the y-extent with
width equal to the thickness, each shifted by the thickness offset
(width-1)//2 and translated by the window origin. -/
theorem draw_line_degenerate_single_fill (wi : WindowInfo)
    (color w x0 y0 x1 y1 : Int)
    (hsh : wi.yshift = 0) (hw : 1 ≤ w)
    (hdeg : x0 = x1 ∨ y0 = y1)
    (hx : 0 ≤ min x0 x1 - Int.fdiv (w - 1) 2)
    (hy : 0 ≤ min y0 y1 - Int.fdiv (w - 1) 2)
    (hxw : max x0 x1 - Int.fdiv (w - 1) 2 + w ≤ wi.width)
    (hyh : max y0 y1 - Int.fdiv (w - 1) 2 + w ≤ wi.height) :
    drawLine wi color w x0 y0 x1 y1 =
      [⟨color, wi.xpos + (min x0 x1 - Int.fdiv (w - 1) 2),
        wi.ypos + (min y0 y1 - Int.fdiv (w - 1) 2),
        (max x0 x1 - min x0 x1) + w, (max y0 y1 - min y0 y1) + w⟩] := by
  have habsx : |(x1 - Int.fdiv (w - 1) 2) - (x0 - Int.fdiv (w - 1) 2)| =
      max x0 x1 - min x0 x1 := by
    rcases le_total x0 x1 with h | h
    · rw [abs_of_nonneg (by omega)]; omega
    · rw [abs_of_nonpos (by omega)]; omega
  have habsy : |(y1 - Int.fdiv (w - 1) 2) - (y0 - Int.fdiv (w - 1) 2)| =
      max y0 y1 - min y0 y1 := by
    rcases le_total y0 y1 with h | h
    · rw [abs_of_nonneg (by omega)]; omega
    · rw [abs_of_nonpos (by omega)]; omega
  unfold drawLine
  simp only [habsx, habsy]
  by_cases hxx : x0 = x1
  · by_cases hyy : y0 = y1
    · rw [if_pos (by constructor <;> omega)]
      rw [wgFill_unclipped wi color _ _ w w hsh (by omega) (by omega) (by omega)
            (by omega) (by omega) (by omega)]
      simp only [Option.toList_some, List.cons.injEq, and_true]
      congr 1 <;> omega
    · rw [if_neg (by intro hcon; omega), if_neg (by intro hcon; omega),
          if_pos (by omega)]
      rw [show (if (y0 - Int.fdiv (w - 1) 2) > (y1 - Int.fdiv (w - 1) 2)
            then y1 - Int.fdiv (w - 1) 2 else y0 - Int.fdiv (w - 1) 2) =
          min y0 y1 - Int.fdiv (w - 1) 2 from by split_ifs <;> omega]
      simp only [sub_neg_eq_add, zero_add]
      rw [wgFill_unclipped wi color _ _ w ((max y0 y1 - min y0 y1) + w) hsh
            (by omega) (by omega) (by omega) (by omega) (by omega) (by omega)]
      simp only [Option.toList_some, List.cons.injEq, and_true]
      congr 1 <;> omega
  · have hyy : y0 = y1 := by tauto
    rw [if_neg (by intro hcon; omega), if_pos (by omega)]
    rw [show (if (x0 - Int.fdiv (w - 1) 2) > (x1 - Int.fdiv (w - 1) 2)
          then x1 - Int.fdiv (w - 1) 2 else x0 - Int.fdiv (w - 1) 2) =
        min x0 x1 - Int.fdiv (w - 1) 2 from by split_ifs <;> omega]
    rw [wgFill_unclipped wi color _ _ ((max x0 x1 - min x0 x1) + w) w hsh
          (by omega) (by omega) (by omega) (by omega) (by omega) (by omega)]
    simp only [Option.toList_some, List.cons.injEq, and_true]
    congr 1 <;> omega

/-- C6 applied at the two concrete instances of the claim: with
thickness 1 on an unclipped full-screen 240 by 240 window,
draw_line(color, 1, 0,0, 0,0) emits exactly one fill of size (1,1) at
the origin and draw_line(color, 1, 0,0, 5,0) emits exactly one fill of
size (6,1) at the origin (shown at color 5). -/
theorem draw_line_degenerate_single_fill_witness :
    drawLine ⟨240, 240, 0, 0, 0⟩ 5 1 0 0 0 0 = [⟨5, 0, 0, 1, 1⟩] ∧
    drawLine ⟨240, 240, 0, 0, 0⟩ 5 1 0 0 5 0 = [⟨5, 0, 0, 6, 1⟩] := by
  constructor
  · have h := draw_line_degenerate_single_fill ⟨240, 240, 0, 0, 0⟩ 5 1 0 0 0 0
      rfl (by decide) (Or.inl rfl) (by decide) (by decide) (by decide) (by decide)
    simpa using h
  · have h := draw_line_degenerate_single_fill ⟨240, 240, 0, 0, 0⟩ 5 1 0 0 5 0
      rfl (by decide) (Or.inr rfl) (by decide) (by decide) (by decide) (by decide)
    simpa using h

/-- Helper: DummyImageStream.read_pixels satisfies the ImageStream
contract of returning a non-negative count no larger than the
request. -/
theorem dummyRead_contract (s : DummyStream) (m : Int) :
    0 ≤ (dummyRead s m).2 ∧ (dummyRead s m).2 ≤ max m 0 := by
  simp only [dummyRead]
  split_ifs <;> constructor <;> omega

/-- Helper: the row-walking loop of HorizontalCropStream.skip_pixels
consumes exactly the clamped request from remaining and keeps the
pixels left in the current row positive. -/
theorem hcsSkipLoop_spec (W S : Int) (hW : 1 ≤ W) (fuel : Nat) :
    ∀ (n remaining rem_in_l st : Int), 0 ≤ n → n.toNat ≤ fuel → 1 ≤ rem_in_l →
      (hcsSkipLoop W S fuel n remaining rem_in_l st).1 = remaining - n ∧
      1 ≤ (hcsSkipLoop W S fuel n remaining rem_in_l st).2.1 := by
  induction fuel with
  | zero =>
    intro n remaining rem_in_l st h0 hf h1
    have hn : n = 0 := by omega
    subst hn
    simp only [hcsSkipLoop]
    exact ⟨by omega, h1⟩
  | succ fuel ih =>
    intro n remaining rem_in_l st h0 hf h1
    simp only [hcsSkipLoop]
    by_cases hn : n ≤ 0
    · rw [if_pos hn]
      have : n = 0 := by omega
      subst this
      exact ⟨by omega, h1⟩
    · rw [if_neg hn]
      by_cases hge : n ≥ rem_in_l
      · rw [if_pos hge]
        have hrec := ih (n - rem_in_l) (remaining - rem_in_l) W (st + rem_in_l + S)
          (by omega) (by omega) hW
        exact ⟨by rw [hrec.1]; ring, hrec.2⟩
      · rw [if_neg hge]
        dsimp only
        exact ⟨rfl, by omega⟩

/-- Helper: the row-walking loop of HorizontalCropStream.read_pixels
consumes exactly the clamped request from remaining, keeps the pixels
left in the current row positive, and accumulates between zero and the
request into read_bytes provided the wrapped stream honors the read
contract. -/
theorem hcropReadLoop_spec {σ : Type} (ops : StreamOps σ) (W S : Int) (hW : 1 ≤ W)
    (Hread : ∀ s m, 0 ≤ (ops.readF s m).2 ∧ (ops.readF s m).2 ≤ max m 0)
    (fuel : Nat) :
    ∀ (ins : σ) (n remaining rem_in_l rb : Int), 0 ≤ n → n.toNat ≤ fuel →
      1 ≤ rem_in_l →
      (hcropReadLoop ops W S fuel ins n remaining rem_in_l rb).2.1 = remaining - n ∧
      1 ≤ (hcropReadLoop ops W S fuel ins n remaining rem_in_l rb).2.2.1 ∧
      rb ≤ (hcropReadLoop ops W S fuel ins n remaining rem_in_l rb).2.2.2 ∧
      (hcropReadLoop ops W S fuel ins n remaining rem_in_l rb).2.2.2 ≤ rb + n := by
  induction fuel with
  | zero =>
    intro ins n remaining rem_in_l rb h0 hf h1
    have hn : n = 0 := by omega
    subst hn
    simp only [hcropReadLoop]
    exact ⟨by omega, h1, by omega, by omega⟩
  | succ fuel ih =>
    intro ins n remaining rem_in_l rb h0 hf h1
    simp only [hcropReadLoop]
    by_cases hn : n ≤ 0
    · rw [if_pos hn]
      have : n = 0 := by omega
      subst this
      dsimp only
      exact ⟨by omega, h1, by omega, by omega⟩
    · rw [if_neg hn]
      by_cases hge : n ≥ rem_in_l
      · rw [if_pos hge]
        obtain ⟨hr0, hr1⟩ := Hread ins rem_in_l
        have hrec := ih (ops.skipF (ops.readF ins rem_in_l).1 S) (n - rem_in_l)
          (remaining - rem_in_l) W (rb + (ops.readF ins rem_in_l).2)
          (by omega) (by omega) hW
        refine ⟨by rw [hrec.1]; ring, hrec.2.1, by omega, by omega⟩
      · rw [if_neg hge]
        obtain ⟨hr0, hr1⟩ := Hread ins n
        dsimp only
        exact ⟨rfl, by omega, by omega, by omega⟩

/-- Helper: one cursor advance of MonoImageStream decrements remaining
by exactly one and signals a stop exactly when remaining is
exhausted. -/
theorem monoAdvance_spec (s : MonoState) :
    (monoAdvance s).1.remaining = s.remaining - 1 ∧
    ((monoAdvance s).2 = true ↔ s.remaining - 1 ≤ 0) := by
  simp only [monoAdvance]
  split_ifs with h1 h2 <;> simp_all

/-- Helper: the skip loop of MonoImageStream decrements remaining by
exactly the fuel when remaining is at least the fuel. -/
theorem monoSkipLoop_spec (fuel : Nat) :
    ∀ (s : MonoState), (fuel : Int) ≤ s.remaining →
      (monoSkipLoop fuel s).remaining = s.remaining - fuel := by
  induction fuel with
  | zero => intro s h; simp [monoSkipLoop]
  | succ fuel ih =>
    intro s h
    have ha := monoAdvance_spec s
    simp only [monoSkipLoop]
    by_cases hstop : (monoAdvance s).2 = true
    · rw [if_pos hstop]
      have h1 := ha.2.mp hstop
      rw [ha.1]
      omega
    · rw [if_neg hstop]
      have hrem : ((fuel : Int)) ≤ (monoAdvance s).1.remaining := by
        rw [ha.1]; omega
      rw [ih _ hrem, ha.1]
      push_cast
      ring

/-- Helper: the read loop of MonoImageStream decrements remaining by
exactly the fuel when remaining is at least the fuel. -/
theorem monoReadLoop_spec (fuel : Nat) :
    ∀ (s : MonoState) (out : List Nat), (fuel : Int) ≤ s.remaining →
      (monoReadLoop fuel s out).1.remaining = s.remaining - fuel := by
  induction fuel with
  | zero => intro s out h; simp [monoReadLoop]
  | succ fuel ih =>
    intro s out h
    have ha := monoAdvance_spec s
    simp only [monoReadLoop]
    by_cases hstop : (monoAdvance s).2 = true
    · rw [if_pos hstop]
      have h1 := ha.2.mp hstop
      rw [ha.1]
      omega
    · rw [if_neg hstop]
      have hrem : ((fuel : Int)) ≤ (monoAdvance s).1.remaining := by
        rw [ha.1]; omega
      rw [ih _ _ hrem, ha.1]
      push_cast
      ring

/-- C9: for the vertical crop, the horizontal crop and the mono
bit-plane decoder, every skip_pixels and read_pixels call leaves the
remaining count no larger than before, never below zero, decreases it
by at most the requested amount, and read_pixels never returns more
than the prior remaining count.  The wrapped stream is only assumed to
honor the ImageStream read contract (a read returns a count between
zero and the request); the horizontal crop parts additionally carry
the structural invariants established by _setup and preserved by every
call, namely a positive cropped width and a positive
remaining-in-current-row counter. -/
theorem stream_remaining_invariants {σ : Type} (ops : StreamOps σ)
    (Hread : ∀ s m, 0 ≤ (ops.readF s m).2 ∧ (ops.readF s m).2 ≤ max m 0) :
    (∀ (ins : σ) (st : VCropSt) (n : Int), 0 ≤ st.remaining →
      (vcropSkip ops ins st n).2.remaining ≤ st.remaining ∧
      0 ≤ (vcropSkip ops ins st n).2.remaining ∧
      st.remaining - (vcropSkip ops ins st n).2.remaining ≤ max n 0) ∧
    (∀ (ins : σ) (st : VCropSt) (n : Int), 0 ≤ st.remaining →
      (vcropRead ops ins st n).2.1.remaining ≤ st.remaining ∧
      0 ≤ (vcropRead ops ins st n).2.1.remaining ∧
      st.remaining - (vcropRead ops ins st n).2.1.remaining ≤ max n 0 ∧
      0 ≤ (vcropRead ops ins st n).2.2 ∧
      (vcropRead ops ins st n).2.2 ≤ st.remaining) ∧
    (∀ (ins : σ) (st : HCropSt) (n : Int), 0 ≤ st.remaining → 1 ≤ st.width →
      1 ≤ st.rem_in_l →
      (hcropSkip ops ins st n).2.remaining ≤ st.remaining ∧
      0 ≤ (hcropSkip ops ins st n).2.remaining ∧
      st.remaining - (hcropSkip ops ins st n).2.remaining ≤ max n 0 ∧
      1 ≤ (hcropSkip ops ins st n).2.rem_in_l) ∧
    (∀ (ins : σ) (st : HCropSt) (n : Int), 0 ≤ st.remaining → 1 ≤ st.width →
      1 ≤ st.rem_in_l →
      (hcropRead ops ins st n).2.1.remaining ≤ st.remaining ∧
      0 ≤ (hcropRead ops ins st n).2.1.remaining ∧
      st.remaining - (hcropRead ops ins st n).2.1.remaining ≤ max n 0 ∧
      1 ≤ (hcropRead ops ins st n).2.1.rem_in_l ∧
      0 ≤ (hcropRead ops ins st n).2.2 ∧
      (hcropRead ops ins st n).2.2 ≤ st.remaining) ∧
    (∀ (s : MonoState) (n : Int), 0 ≤ s.remaining →
      (monoSkipPixels s n).remaining ≤ s.remaining ∧
      0 ≤ (monoSkipPixels s n).remaining ∧
      s.remaining - (monoSkipPixels s n).remaining ≤ max n 0) ∧
    (∀ (s : MonoState) (n : Int), 0 ≤ s.remaining →
      (monoReadPixels s n).1.remaining ≤ s.remaining ∧
      0 ≤ (monoReadPixels s n).1.remaining ∧
      s.remaining - (monoReadPixels s n).1.remaining ≤ max n 0 ∧
      0 ≤ (monoReadPixels s n).2.2 ∧
      (monoReadPixels s n).2.2 ≤ s.remaining) := by
  refine ⟨?_, ?_, ?_, ?_, ?_, ?_⟩
  · intro ins st n h0
    simp only [vcropSkip]
    split_ifs with h1 h2 h3 <;> dsimp only <;> omega
  · intro ins st n h0
    simp only [vcropRead]
    split_ifs with h1 h2 h3 <;> dsimp only
    · omega
    · obtain ⟨hr0, hr1⟩ := Hread ins st.remaining
      omega
    · omega
    · obtain ⟨hr0, hr1⟩ := Hread ins n
      omega
  · intro ins st n h0 hwid hril
    simp only [hcropSkip]
    split_ifs with h1 h2 h3 <;> dsimp only
    · exact ⟨by omega, by omega, by omega, hril⟩
    · obtain ⟨hs1, hs2⟩ := hcsSkipLoop_spec st.width st.skip hwid st.remaining.toNat
        st.remaining st.remaining st.rem_in_l 0 (by omega) (by omega) hril
      exact ⟨by omega, by omega, by omega, hs2⟩
    · exact ⟨by omega, by omega, by omega, hril⟩
    · obtain ⟨hs1, hs2⟩ := hcsSkipLoop_spec st.width st.skip hwid n.toNat
        n st.remaining st.rem_in_l 0 (by omega) (by omega) hril
      exact ⟨by omega, by omega, by omega, hs2⟩
  · intro ins st n h0 hwid hril
    simp only [hcropRead]
    split_ifs with h1 h2 h3 <;> dsimp only
    · exact ⟨by omega, by omega, by omega, hril, by omega, by omega⟩
    · obtain ⟨hs1, hs2, hs3, hs4⟩ := hcropReadLoop_spec ops st.width st.skip hwid
        Hread st.remaining.toNat ins st.remaining st.remaining st.rem_in_l 0
        (by omega) (by omega) hril
      exact ⟨by omega, by omega, by omega, hs2, by omega, by omega⟩
    · exact ⟨by omega, by omega, by omega, hril, by omega, by omega⟩
    · obtain ⟨hs1, hs2, hs3, hs4⟩ := hcropReadLoop_spec ops st.width st.skip hwid
        Hread n.toNat ins n st.remaining st.rem_in_l 0 (by omega) (by omega) hril
      exact ⟨by omega, by omega, by omega, hs2, by omega, by omega⟩
  · intro s n h0
    simp only [monoSkipPixels]
    split_ifs with h1 h2 h3
    · omega
    · have hs := monoSkipLoop_spec s.remaining.toNat s (by omega)
      omega
    · omega
    · have hs := monoSkipLoop_spec n.toNat s (by omega)
      omega
  · intro s n h0
    simp only [monoReadPixels]
    split_ifs with h1 h2 h3 <;> dsimp only
    · omega
    · have hs := monoReadLoop_spec s.remaining.toNat s [] (by omega)
      omega
    · omega
    · have hs := monoReadLoop_spec n.toNat s [] (by omega)
      omega

/-- C9 applied at concrete inputs: a vertical crop view with 12 pixels
remaining over a 4 by 4 dummy source skipping 5 pixels, a horizontal
crop view with 20 pixels remaining and 5 left in the current row
skipping 7 pixels, and the 1 by 1 mono image reading one pixel. -/
theorem stream_remaining_invariants_witness :
    ((vcropSkip (dummyOps 4 4) (dummyNew 4 4) ⟨4, 3, 0, 12, 0, 12⟩ 5).2.remaining ≤ 12 ∧
     0 ≤ (vcropSkip (dummyOps 4 4) (dummyNew 4 4) ⟨4, 3, 0, 12, 0, 12⟩ 5).2.remaining ∧
     12 - (vcropSkip (dummyOps 4 4) (dummyNew 4 4) ⟨4, 3, 0, 12, 0, 12⟩ 5).2.remaining ≤
       max 5 0) ∧
    ((hcropSkip (dummyOps 10 4) (dummyNew 10 4)
        ⟨5, 4, 2, 5, 20, 40, 20, 5⟩ 7).2.remaining ≤ 20 ∧
     0 ≤ (hcropSkip (dummyOps 10 4) (dummyNew 10 4)
        ⟨5, 4, 2, 5, 20, 40, 20, 5⟩ 7).2.remaining ∧
     20 - (hcropSkip (dummyOps 10 4) (dummyNew 10 4)
        ⟨5, 4, 2, 5, 20, 40, 20, 5⟩ 7).2.remaining ≤ max 7 0 ∧
     1 ≤ (hcropSkip (dummyOps 10 4) (dummyNew 10 4)
        ⟨5, 4, 2, 5, 20, 40, 20, 5⟩ 7).2.rem_in_l) ∧
    ((monoReadPixels ⟨[3], 1, 1, 1, 0, 65535, 1, 3, 0, 1, 1⟩ 1).1.remaining ≤ 1 ∧
     0 ≤ (monoReadPixels ⟨[3], 1, 1, 1, 0, 65535, 1, 3, 0, 1, 1⟩ 1).1.remaining ∧
     1 - (monoReadPixels ⟨[3], 1, 1, 1, 0, 65535, 1, 3, 0, 1, 1⟩ 1).1.remaining ≤
       max 1 0 ∧
     0 ≤ (monoReadPixels ⟨[3], 1, 1, 1, 0, 65535, 1, 3, 0, 1, 1⟩ 1).2.2 ∧
     (monoReadPixels ⟨[3], 1, 1, 1, 0, 65535, 1, 3, 0, 1, 1⟩ 1).2.2 ≤ 1) :=
  ⟨(stream_remaining_invariants (dummyOps 4 4) dummyRead_contract).1
      (dummyNew 4 4) ⟨4, 3, 0, 12, 0, 12⟩ 5 (by decide),
   (stream_remaining_invariants (dummyOps 10 4) dummyRead_contract).2.2.1
      (dummyNew 10 4) ⟨5, 4, 2, 5, 20, 40, 20, 5⟩ 7 (by decide) (by decide) (by decide),
   (stream_remaining_invariants (dummyOps 4 4) dummyRead_contract).2.2.2.2.2
      ⟨[3], 1, 1, 1, 0, 65535, 1, 3, 0, 1, 1⟩ 1 (by decide)⟩

/-- Helper: a bit of a word with one extra bit set. -/
theorem testBit_or_shift (word i j : Nat) :
    ((word ||| (1 <<< i)).testBit j = true) ↔ (word.testBit j = true ∨ j = i) := by
  rw [Nat.testBit_lor, Nat.one_shiftLeft, Nat.testBit_two_pow]
  simp only [Bool.or_eq_true, decide_eq_true_eq]
  constructor <;> rintro (h | h)
  · exact Or.inl h
  · exact Or.inr h.symm
  · exact Or.inl h
  · exact Or.inr h.symm

/-- Helper: unfolding the disjointness of two tile rectangles to an
unbounded statement about shared tiles. -/
theorem tileDisjoint_iff (a b : Comp) :
    tileDisjoint a b ↔ ∀ r j, ¬(occupies a r j ∧ occupies b r j) := by
  constructor
  · intro h r j hc
    exact h r hc.1.2.1 j hc.1.2.2.2 hc
  · intro h r _ j _
    exact h r j

/-- Helper: the column loop of the Screen overlap check succeeds
exactly when none of the checked bits is set in the captured row
value. -/
theorem markRow_isOk (value : Nat) :
    ∀ (count word i : Nat),
      ((markRow value word i count).isOk = true ↔
        ∀ j, i ≤ j → j < i + count → value.testBit j = false) := by
  intro count
  induction count with
  | zero =>
    intro word i
    refine iff_of_true rfl ?_
    intro j h1 h2
    exact absurd (h1.trans_lt h2) (lt_irrefl i)
  | succ count ih =>
    intro word i
    by_cases hb : value.testBit i = true
    · simp only [markRow, hb, if_true]
      refine iff_of_false (by simp [Except.isOk, Except.toBool]) ?_
      intro h
      have := h i le_rfl (by omega)
      rw [this] at hb
      exact Bool.false_ne_true hb
    · replace hb : value.testBit i = false := by
        cases h : value.testBit i
        · rfl
        · exact absurd h hb
      simp only [markRow, hb, Bool.false_eq_true, if_false]
      rw [ih (word ||| 1 <<< i) (i + 1)]
      constructor
      · intro h j h1 h2
        rcases eq_or_lt_of_le h1 with he | hlt
        · rw [← he]; exact hb
        · exact h j (by omega) (by omega)
      · intro h j h1 h2
        exact h j (by omega) (by omega)

/-- Helper: on success the column loop returns the row word with
exactly the checked bit range newly set. -/
theorem markRow_ok_bits (value : Nat) :
    ∀ (count word i w : Nat), markRow value word i count = .ok w →
      ∀ j, (w.testBit j = true ↔
        (word.testBit j = true ∨ (i ≤ j ∧ j < i + count))) := by
  intro count
  induction count with
  | zero =>
    intro word i w h j
    simp only [markRow, Except.ok.injEq] at h
    subst h
    constructor
    · intro h2; exact Or.inl h2
    · rintro (h2 | h2)
      · exact h2
      · omega
  | succ count ih =>
    intro word i w h j
    by_cases hb : value.testBit i = true
    · simp only [markRow, hb, if_true] at h
      exact absurd h (by simp)
    · replace hb : value.testBit i = false := by
        cases h2 : value.testBit i
        · rfl
        · exact absurd h2 hb
      simp only [markRow, hb, Bool.false_eq_true, if_false] at h
      have h2 := ih (word ||| 1 <<< i) (i + 1) w h j
      rw [h2, testBit_or_shift]
      constructor
      · rintro ((h3 | h3) | h3)
        · exact Or.inl h3
        · exact Or.inr (by omega)
        · exact Or.inr (by omega)
      · rintro (h3 | h3)
        · exact Or.inl (Or.inl h3)
        · rcases Nat.eq_or_lt_of_le h3.1 with he | hlt
          · exact Or.inl (Or.inr he.symm)
          · exact Or.inr (by omega)

/-- Helper: the row loop of the Screen overlap check succeeds exactly
when no tile of the component's rectangle is already set in the
bitfield. -/
theorem markComp_isOk (c : Comp) :
    ∀ (count : Nat) (f : Nat → Nat) (r : Nat),
      ((markComp c f r count).isOk = true ↔
        ∀ r', r ≤ r' → r' < r + count →
          ∀ j, cx0 c ≤ j → j < cx0 c + (c.width >>> 4) →
            (f r').testBit j = false) := by
  intro count
  induction count with
  | zero =>
    intro f r
    refine iff_of_true rfl ?_
    intro r' h1 h2
    exact absurd (h1.trans_lt h2) (lt_irrefl r)
  | succ count ih =>
    intro f r
    cases hmr : markRow (f r) (f r) (cx0 c) (c.width >>> 4) with
    | error e =>
      simp only [markComp, hmr]
      refine iff_of_false (by simp [Except.isOk, Except.toBool]) ?_
      intro h
      have h2 := (markRow_isOk (f r) (c.width >>> 4) (f r) (cx0 c)).mpr
        (fun j hj1 hj2 => h r le_rfl (by omega) j hj1 hj2)
      rw [hmr] at h2
      exact Bool.false_ne_true h2
    | ok w =>
      simp only [markComp, hmr]
      rw [ih (fun r' => if r' = r then w else f r') (r + 1)]
      have hrow := (markRow_isOk (f r) (c.width >>> 4) (f r) (cx0 c)).mp
        (by rw [hmr]; rfl)
      constructor
      · intro h r' h1 h2 j hj1 hj2
        rcases Nat.eq_or_lt_of_le h1 with he | hlt
        · subst he; exact hrow j hj1 (by omega)
        · have h3 := h r' (by omega) (by omega) j hj1 hj2
          rw [if_neg (by omega)] at h3
          exact h3
      · intro h r' h1 h2 j hj1 hj2
        rw [if_neg (by omega)]
        exact h r' (by omega) (by omega) j hj1 hj2

/-- Helper: on success the row loop returns the bitfield with exactly
the component's tile rectangle newly set. -/
theorem markComp_ok_bits (c : Comp) :
    ∀ (count : Nat) (f : Nat → Nat) (r : Nat) (f2 : Nat → Nat),
      markComp c f r count = .ok f2 →
      ∀ r' j, ((f2 r').testBit j = true ↔
        ((f r').testBit j = true ∨
         (r ≤ r' ∧ r' < r + count ∧ cx0 c ≤ j ∧ j < cx0 c + (c.width >>> 4)))) := by
  intro count
  induction count with
  | zero =>
    intro f r f2 h r' j
    simp only [markComp, Except.ok.injEq] at h
    subst h
    constructor
    · intro h2; exact Or.inl h2
    · rintro (h2 | h2)
      · exact h2
      · omega
  | succ count ih =>
    intro f r f2 h r' j
    cases hmr : markRow (f r) (f r) (cx0 c) (c.width >>> 4) with
    | error e =>
      rw [markComp, hmr] at h
      exact absurd h (by simp)
    | ok w =>
      rw [markComp, hmr] at h
      have h2 := ih (fun r'' => if r'' = r then w else f r'') (r + 1) f2 h r' j
      rw [h2]
      by_cases hr : r' = r
      · subst hr
        rw [if_pos rfl, markRow_ok_bits (f r') (c.width >>> 4) (f r') (cx0 c) w hmr j]
        constructor
        · rintro ((h3 | h3) | h3)
          · exact Or.inl h3
          · exact Or.inr ⟨le_rfl, by omega, h3.1, h3.2⟩
          · omega
        · rintro (h3 | h3)
          · exact Or.inl (Or.inl h3)
          · exact Or.inl (Or.inr ⟨h3.2.2.1, h3.2.2.2⟩)
      · rw [if_neg hr]
        constructor
        · rintro (h3 | h3)
          · exact Or.inl h3
          · exact Or.inr ⟨by omega, by omega, h3.2.2.1, h3.2.2.2⟩
        · rintro (h3 | h3)
          · exact Or.inl h3
          · exact Or.inr ⟨by omega, by omega, h3.2.2.1, h3.2.2.2⟩

/-- Helper: the per-component loop of Screen.__init__ succeeds exactly
when the components are pairwise tile-disjoint and none of them hits a
bit already set in the incoming bitfield. -/
theorem screenLoop_isOk (TH TW : Nat) :
    ∀ (cs : List Comp) (f : Nat → Nat) (cid : Nat),
      (∀ c ∈ cs, cy1 c ≤ TH ∧ cx1 c ≤ TW) →
      ((screenLoop TH TW f cid cs).isOk = true ↔
        (cs.Pairwise tileDisjoint ∧
         ∀ c ∈ cs, ∀ r j, occupies c r j → (f r).testBit j = false)) := by
  intro cs
  induction cs with
  | nil =>
    intro f cid _
    refine iff_of_true rfl ?_
    exact ⟨List.Pairwise.nil, by intro c hc; cases hc⟩
  | cons c cs ih =>
    intro f cid hbounds
    have hc := hbounds c (List.mem_cons_self c cs)
    have hcy1 : cy1 c = cy0 c + (c.height >>> 4) := rfl
    have hcx1 : cx1 c = cx0 c + (c.width >>> 4) := rfl
    cases hmc : markComp c f (cy0 c) (c.height >>> 4) with
    | error e =>
      have hlhs : (screenLoop TH TW f cid (c :: cs)).isOk = false := by
        simp only [screenLoop]
        rw [if_neg (by omega), hmc]
        rfl
      refine iff_of_false (by rw [hlhs]; exact Bool.false_ne_true) ?_
      rintro ⟨hpw, hmiss⟩
      have hall : ∀ r', cy0 c ≤ r' → r' < cy0 c + (c.height >>> 4) →
          ∀ j, cx0 c ≤ j → j < cx0 c + (c.width >>> 4) → (f r').testBit j = false := by
        intro r' h1 h2 j hj1 hj2
        exact hmiss c (List.mem_cons_self c cs) r' j ⟨h1, h2, hj1, hj2⟩
      have h2 := (markComp_isOk c (c.height >>> 4) f (cy0 c)).mpr hall
      rw [hmc] at h2
      exact Bool.false_ne_true h2
    | ok f2 =>
      have hbits := markComp_ok_bits c (c.height >>> 4) f (cy0 c) f2 hmc
      have hcmiss : ∀ r j, occupies c r j → (f r).testBit j = false :=
        fun r j ho => (markComp_isOk c (c.height >>> 4) f (cy0 c)).mp
          (by rw [hmc]; rfl) r ho.1 ho.2.1 j ho.2.2.1 ho.2.2.2
      have hiso : (screenLoop TH TW f cid (c :: cs)).isOk =
          (screenLoop TH TW f2 (cid + 1) cs).isOk := by
        simp only [screenLoop]
        rw [if_neg (by omega), hmc]
        dsimp only
        cases screenLoop TH TW f2 (cid + 1) cs <;> rfl
      have hocc : ∀ r j, occupies c r j ↔
          (cy0 c ≤ r ∧ r < cy0 c + (c.height >>> 4) ∧ cx0 c ≤ j ∧
           j < cx0 c + (c.width >>> 4)) := by
        intro r j
        unfold occupies
        omega
      rw [hiso, ih f2 (cid + 1) (fun b hb => hbounds b (List.mem_cons_of_mem c hb))]
      rw [List.pairwise_cons]
      constructor
      · rintro ⟨hpw2, hm2⟩
        refine ⟨⟨?_, hpw2⟩, ?_⟩
        · intro b hb
          rw [tileDisjoint_iff]
          rintro r j ⟨hoc, hob⟩
          have h3 : (f2 r).testBit j = true :=
            (hbits r j).mpr (Or.inr (by rw [hocc r j] at hoc; exact hoc))
          rw [hm2 b hb r j hob] at h3
          exact Bool.false_ne_true h3
        · intro c' hc' r j ho
          rcases List.mem_cons.mp hc' with he | hm
          · subst he; exact hcmiss r j ho
          · have h3 := hm2 c' hm r j ho
            cases h4 : (f r).testBit j
            · rfl
            · have h5 : (f2 r).testBit j = true := (hbits r j).mpr (Or.inl h4)
              rw [h3] at h5
              exact absurd h5 (by simp)
      · rintro ⟨⟨hd, hpw2⟩, hmiss⟩
        refine ⟨hpw2, ?_⟩
        intro c' hc' r j ho
        cases h4 : (f2 r).testBit j
        · rfl
        · rcases (hbits r j).mp h4 with h5 | h5
          · have h6 := hmiss c' (List.mem_cons_of_mem c hc') r j ho
            rw [h6] at h5
            exact absurd h5 (by simp)
          · have hoc : occupies c r j := by rw [hocc r j]; exact h5
            have h6 := (tileDisjoint_iff c c').mp (hd c' hc') r j
            exact absurd ⟨hoc, ho⟩ h6

/-- Helper: on success the per-component loop pairs the components
with sequential ids starting at the incoming id, in list order. -/
theorem screenLoop_ids (TH TW : Nat) :
    ∀ (cs : List Comp) (f : Nat → Nat) (cid : Nat) (res : List (Comp × Nat)),
      screenLoop TH TW f cid cs = .ok res →
      res.map Prod.snd = List.range' cid cs.length ∧ res.map Prod.fst = cs := by
  intro cs
  induction cs with
  | nil =>
    intro f cid res h
    simp only [screenLoop, Except.ok.injEq] at h
    subst h
    simp [List.range']
  | cons c cs ih =>
    intro f cid res h
    simp only [screenLoop] at h
    by_cases hbc : cy1 c > TH ∨ cx1 c > TW
    · rw [if_pos hbc] at h
      exact absurd h (by simp)
    · rw [if_neg hbc] at h
      cases hmc : markComp c f (cy0 c) (c.height >>> 4) with
      | error e =>
        rw [hmc] at h
        exact absurd h (by simp)
      | ok f2 =>
        rw [hmc] at h
        dsimp only at h
        cases hsl : screenLoop TH TW f2 (cid + 1) cs with
        | error e =>
          rw [hsl] at h
          exact absurd h (by simp)
        | ok rest =>
          rw [hsl] at h
          simp only [Except.ok.injEq] at h
          subst h
          have hih := ih f2 (cid + 1) rest hsl
          simp only [List.map_cons, List.length_cons]
          rw [List.range'_succ cid cs.length 1, hih.1, hih.2]
          exact ⟨rfl, rfl⟩

/-- C7: with every component on screen (relative to the tiled
dimensions the source computes) and at most 127 components, Screen
construction succeeds exactly when no two components' occupied tile
rectangles share a tile, so overlapping rectangles raise and
edge-adjacent disjoint rectangles succeed; on success the components
receive sequential ids 1, 2, ... in list order. -/
theorem screen_overlap_detection (sw sh : Nat) (cs : List Comp)
    (hlen : cs.length ≤ 127)
    (hbounds : ∀ c ∈ cs, cy1 c ≤ sw >>> 4 ∧ cx1 c ≤ sh >>> 4) :
    ((screenInit sw sh cs).isOk = true ↔ cs.Pairwise tileDisjoint) ∧
    (∀ res, screenInit sw sh cs = .ok res →
      res.map Prod.snd = List.range' 1 cs.length ∧ res.map Prod.fst = cs) := by
  unfold screenInit
  rw [if_neg (by omega)]
  constructor
  · rw [screenLoop_isOk (sw >>> 4) (sh >>> 4) cs (fun _ => 0) 1 hbounds]
    constructor
    · intro h; exact h.1
    · intro h
      refine ⟨h, ?_⟩
      intro c _ r j _
      exact Nat.zero_testBit j
  · intro res h
    exact screenLoop_ids (sw >>> 4) (sh >>> 4) cs (fun _ => 0) 1 res h

/-- C7 applied at concrete inputs: on a 240 by 240 display, a screen
with two edge-adjacent tile-aligned 16 by 16 components at (0,0) and
(16,0) is constructed successfully with ids 1 and 2 in list order,
and a screen whose second component shares the tile of the first
raises. -/
theorem screen_overlap_detection_witness :
    (screenInit 240 240 [⟨0, 0, 16, 16⟩, ⟨16, 0, 16, 16⟩]).isOk = true ∧
    ([(⟨0, 0, 16, 16⟩, 1), (⟨16, 0, 16, 16⟩, 2)] : List (Comp × Nat)).map Prod.snd =
      List.range' 1 ([⟨0, 0, 16, 16⟩, ⟨16, 0, 16, 16⟩] : List Comp).length ∧
    ([(⟨0, 0, 16, 16⟩, 1), (⟨16, 0, 16, 16⟩, 2)] : List (Comp × Nat)).map Prod.fst =
      [⟨0, 0, 16, 16⟩, ⟨16, 0, 16, 16⟩] ∧
    (screenInit 240 240 [⟨0, 0, 16, 16⟩, ⟨0, 0, 16, 16⟩]).isOk = false :=
  ⟨(screen_overlap_detection 240 240 [⟨0, 0, 16, 16⟩, ⟨16, 0, 16, 16⟩]
      (by decide) (by decide)).1.mpr (by decide),
   ((screen_overlap_detection 240 240 [⟨0, 0, 16, 16⟩, ⟨16, 0, 16, 16⟩]
      (by decide) (by decide)).2 [(⟨0, 0, 16, 16⟩, 1), (⟨16, 0, 16, 16⟩, 2)] rfl).1,
   ((screen_overlap_detection 240 240 [⟨0, 0, 16, 16⟩, ⟨16, 0, 16, 16⟩]
      (by decide) (by decide)).2 [(⟨0, 0, 16, 16⟩, 1), (⟨16, 0, 16, 16⟩, 2)] rfl).2,
   by
     have h := (screen_overlap_detection 240 240 [⟨0, 0, 16, 16⟩, ⟨0, 0, 16, 16⟩]
       (by decide) (by decide)).1
     cases h2 : (screenInit 240 240 [⟨0, 0, 16, 16⟩, ⟨0, 0, 16, 16⟩]).isOk
     · rfl
     · exact absurd (h.mp h2) (by decide)⟩

end WGL
